import Mathlib

/-!
Shallow embedding of `src/src/grid.rs` (the display-cell buffer and its
diff/compose operations) together with proofs of the specified properties.

Rust `Vec<T>` becomes `List T`, `usize` becomes `Nat`, and the `as u16`
casts in `Grid::dimension` / `Grid::set_border` become `% 65536`.
Operations that can panic (out-of-bounds indexing) return `Option`:
`none` models a panic.
-/

/-- Colors of the `crossterm` crate (`crossterm::style::Color`).
Only `white` and `black` are used by this module; the variant list follows
the crate so that cell equality is faithful. -/
inductive Color where
  | reset | black | darkGrey | red | darkRed | green | darkGreen
  | yellow | darkYellow | blue | darkBlue | magenta | darkMagenta
  | cyan | darkCyan | white | grey
  | rgb (r g b : Nat)
  | ansiValue (v : Nat)
deriving DecidableEq, Repr

/-- Type `tree_sitter::Point`: a (row, column) coordinate. -/
structure Point where
  row : Nat
  column : Nat
deriving DecidableEq, Repr

/-- Struct `Cell` from `grid.rs`: a displayed symbol plus foreground and
background colors. -/
structure Cell where
  symbol : String
  foreground_color : Color
  background_color : Color
deriving DecidableEq, Repr

/-- Value `Cell::default()`: a blank space on white/white. -/
def Cell.default : Cell :=
  { symbol := " ", foreground_color := Color.white, background_color := Color.white }

/-- Struct `PositionedCell` from `grid.rs`: a cell tagged with its coordinate. -/
structure PositionedCell where
  cell : Cell
  position : Point
deriving DecidableEq, Repr

/-- Struct `Dimension` from `screen.rs` (not under `src/`). Modelled from the spec:
a height/width pair (`u16` in the source, hence the `% 65536` where the
code casts to it). -/
structure Dimension where
  height : Nat
  width : Nat
deriving DecidableEq, Repr

/-- Struct `Rectangle` from `rectangle.rs` (not under `src/`). Modelled from the
spec: an origin coordinate plus a size. `Grid::update` reads only `origin`. -/
structure Rectangle where
  origin : Point
  width : Nat
  height : Nat
deriving DecidableEq, Repr

/-- Enum `BorderDirection` from `rectangle.rs` (not under `src/`). Modelled from
the spec: horizontal or vertical. -/
inductive BorderDirection where
  | horizontal
  | vertical
deriving DecidableEq, Repr

/-- Struct `Border` from `rectangle.rs` (not under `src/`). Modelled from the
spec: a starting coordinate plus a direction. -/
structure Border where
  direction : BorderDirection
  start : Point
deriving DecidableEq, Repr

/-- Struct `Grid` from `grid.rs`: a vector of rows of cells. -/
structure Grid where
  rows : List (List Cell)
deriving DecidableEq, Repr

/-- Constructor `Grid::new(dimension)`: `height` rows of `width` default cells. -/
def Grid.new (dimension : Dimension) : Grid :=
  ⟨List.replicate dimension.height (List.replicate dimension.width Cell.default)⟩

/-- The lookup `rows.get(r).map(|row| row.get(c)).flatten()` used by
`Grid::diff`, on a raw row list. -/
def lookupCell (rows : List (List Cell)) (r c : Nat) : Option Cell :=
  (rows.get? r).bind (fun row => row.get? c)

/-- The lookup of `Grid::diff` on a grid. -/
def Grid.cellAt (g : Grid) (r c : Nat) : Option Cell :=
  lookupCell g.rows r c

/-- One step of the inner loop of `Grid::diff`: the (zero- or one-element)
output that the comparison at position `(ri, ci)` pushes. -/
def diffOne (old : Grid) (ri ci : Nat) (newCell : Cell) : List PositionedCell :=
  match old.cellAt ri ci with
  | some oldCell => if newCell = oldCell then [] else [⟨newCell, ⟨ri, ci⟩⟩]
  | none => [⟨newCell, ⟨ri, ci⟩⟩]

/-- The inner (column) loop of `Grid::diff` over one row of the new grid,
with `ci` the running column index. -/
def diffCells (old : Grid) (ri : Nat) : Nat → List Cell → List PositionedCell
  | _, [] => []
  | ci, c :: rest => diffOne old ri ci c ++ diffCells old ri (ci + 1) rest

/-- The outer (row) loop of `Grid::diff`, with `ri` the running row index. -/
def diffRows (old : Grid) : Nat → List (List Cell) → List PositionedCell
  | _, [] => []
  | ri, row :: rest => diffCells old ri 0 row ++ diffRows old (ri + 1) rest

/-- Method `Grid::diff(&self, new_grid)`: the positioned cells of `new_grid` that
are absent from or differ from `self`, in row-major order. -/
def Grid.diff (g new_grid : Grid) : List PositionedCell :=
  diffRows g 0 new_grid.rows

/-- The inner loop of `Grid::to_position_cells` over one row. -/
def toPositionCellsRow (ri : Nat) : Nat → List Cell → List PositionedCell
  | _, [] => []
  | ci, c :: rest => ⟨c, ⟨ri, ci⟩⟩ :: toPositionCellsRow ri (ci + 1) rest

/-- The outer loop of `Grid::to_position_cells`. -/
def toPositionCellsRows : Nat → List (List Cell) → List PositionedCell
  | _, [] => []
  | ri, row :: rest => toPositionCellsRow ri 0 row ++ toPositionCellsRows (ri + 1) rest

/-- Method `Grid::to_position_cells`: every cell of the grid with its coordinate,
in row-major order. -/
def Grid.to_position_cells (g : Grid) : List PositionedCell :=
  toPositionCellsRows 0 g.rows

/-- The assignment `rows[r][c] = cell`: `none` when either index is out of
bounds (a panic in the source). -/
def setCell (rows : List (List Cell)) (r c : Nat) (cell : Cell) : Option (List (List Cell)) :=
  (rows.get? r).bind fun row =>
    if c < row.length then some (rows.set r (row.set c cell)) else none

/-- A sequence of cell assignments, aborting (panicking) at the first
out-of-bounds write. Each write is `(row index, column index, cell)`. -/
def applyWrites : List (Nat × Nat × Cell) → List (List Cell) → Option (List (List Cell))
  | [], rows => some rows
  | w :: rest, rows =>
    match setCell rows w.1 w.2.1 w.2.2 with
    | none => none
    | some rows1 => applyWrites rest rows1

/-- The writes of the inner loop of `Grid::update` for one row of `other`,
with `ci` the running column index. -/
def rowWrites (origin : Point) (ri : Nat) : Nat → List Cell → List (Nat × Nat × Cell)
  | _, [] => []
  | ci, c :: rest => (ri + origin.row, ci + origin.column, c) :: rowWrites origin ri (ci + 1) rest

/-- The writes of the outer loop of `Grid::update`, with `ri` the running
row index. -/
def gridWrites (origin : Point) : Nat → List (List Cell) → List (Nat × Nat × Cell)
  | _, [] => []
  | ri, row :: rest => rowWrites origin ri 0 row ++ gridWrites origin (ri + 1) rest

/-- Method `Grid::update(self, other, rectangle)`: copy every cell of `other` into
`self` at offset `rectangle.origin`; `none` models the out-of-bounds panic. -/
def Grid.update (g : Grid) (other : Grid) (rectangle : Rectangle) : Option Grid :=
  (applyWrites (gridWrites rectangle.origin 0 other.rows) g.rows).map Grid.mk

/-- Method `Grid::dimension`: `height = rows.len() as u16`,
`width = rows[0].len() as u16`. Indexing `rows[0]` panics (`none`) on an
empty row vector. -/
def Grid.dimension (g : Grid) : Option Dimension :=
  match g.rows.get? 0 with
  | none => none
  | some row0 => some ⟨g.rows.length % 65536, row0.length % 65536⟩

/-- The cell written by a horizontal border. -/
def horizontalBorderCell : Cell :=
  { symbol := "─", foreground_color := Color.black, background_color := Color.white }

/-- The cell written by a vertical border. -/
def verticalBorderCell : Cell :=
  { symbol := "│", foreground_color := Color.black, background_color := Color.white }

/-- Method `Grid::set_border(self, border)`: paint a line to the edge of the grid.
The loop bound uses `u16` saturating subtraction after an `as u16` cast of
the start coordinate; the writes themselves index with the uncast `usize`
coordinates and may panic (`none`). -/
def Grid.set_border (g : Grid) (border : Border) : Option Grid :=
  match g.dimension with
  | none => none
  | some d =>
    let ws : List (Nat × Nat × Cell) :=
      match border.direction with
      | BorderDirection.horizontal =>
        (List.range (d.width - border.start.column % 65536)).map
          (fun i => (border.start.row, border.start.column + i, horizontalBorderCell))
      | BorderDirection.vertical =>
        (List.range (d.height - border.start.row % 65536)).map
          (fun i => (border.start.row + i, border.start.column, verticalBorderCell))
    (applyWrites ws g.rows).map Grid.mk

/-- Row-major (lexicographic) order on positioned cells: strictly earlier
row, or same row and strictly earlier column. -/
def posLt (p q : PositionedCell) : Prop :=
  p.position.row < q.position.row ∨
    (p.position.row = q.position.row ∧ p.position.column < q.position.column)

/-- Left value if present, else the fallback: the override of an earlier
result by a later one. -/
def overwrite (w fallback : Option Cell) : Option Cell :=
  match w with
  | some v => some v
  | none => fallback

/-- The value of the last write in the list that targets `(r, c)`, if any. -/
def lastWrite (r c : Nat) : List (Nat × Nat × Cell) → Option Cell
  | [] => none
  | w :: rest =>
    overwrite (lastWrite r c rest) (if w.1 = r ∧ w.2.1 = c then some w.2.2 else none)

/-! ### Basic facts about the diff loops -/

theorem diffOne_mem (old : Grid) (ri ci : Nat) (c : Cell) (pc : PositionedCell)
    (h : pc ∈ diffOne old ri ci c) : pc = ⟨c, ⟨ri, ci⟩⟩ := by
  unfold diffOne at h
  cases hx : old.cellAt ri ci <;> simp [hx] at h
  · exact h
  · rcases h with ⟨_, h⟩; exact h

theorem diffOne_of_none (old : Grid) (ri ci : Nat) (c : Cell)
    (h : old.cellAt ri ci = none) : diffOne old ri ci c = [⟨c, ⟨ri, ci⟩⟩] := by
  unfold diffOne; rw [h]

theorem diffOne_of_eq (old : Grid) (ri ci : Nat) (c : Cell)
    (h : old.cellAt ri ci = some c) : diffOne old ri ci c = [] := by
  unfold diffOne; rw [h]; simp

theorem diffOne_pairwise (old : Grid) (ri ci : Nat) (c : Cell) :
    List.Pairwise posLt (diffOne old ri ci c) := by
  unfold diffOne
  cases hx : old.cellAt ri ci <;> simp only [hx]
  · simp
  · split <;> simp

theorem diffCells_mem (old : Grid) (ri : Nat) :
    ∀ (row : List Cell) (ci : Nat) (pc : PositionedCell), pc ∈ diffCells old ri ci row →
      pc.position.row = ri ∧ ∃ j, row.get? j = some pc.cell ∧ pc.position.column = ci + j := by
  intro row
  induction row with
  | nil => intro ci pc h; simp [diffCells] at h
  | cons c rest ih =>
    intro ci pc h
    simp only [diffCells, List.mem_append] at h
    rcases h with h | h
    · rcases diffOne_mem old ri ci c pc h with rfl
      exact ⟨rfl, 0, rfl, by simp⟩
    · rcases ih (ci + 1) pc h with ⟨h1, j, h2, h3⟩
      exact ⟨h1, j + 1, by simpa using h2, by omega⟩

theorem diffRows_mem (old : Grid) :
    ∀ (rows : List (List Cell)) (ri : Nat) (pc : PositionedCell), pc ∈ diffRows old ri rows →
      ∃ i row, rows.get? i = some row ∧ pc.position.row = ri + i ∧
        ∃ j, row.get? j = some pc.cell ∧ pc.position.column = j := by
  intro rows
  induction rows with
  | nil => intro ri pc h; simp [diffRows] at h
  | cons row rest ih =>
    intro ri pc h
    simp only [diffRows, List.mem_append] at h
    rcases h with h | h
    · rcases diffCells_mem old ri row 0 pc h with ⟨h1, j, h2, h3⟩
      exact ⟨0, row, rfl, by omega, j, h2, by omega⟩
    · rcases ih (ri + 1) pc h with ⟨i, roww, h1, h2, j, h3, h4⟩
      exact ⟨i + 1, roww, by simpa using h1, by omega, j, h3, h4⟩

theorem diffCells_mem_of_none (old : Grid) (ri : Nat) :
    ∀ (row : List Cell) (ci j : Nat) (c : Cell), row.get? j = some c →
      old.cellAt ri (ci + j) = none →
      (⟨c, ⟨ri, ci + j⟩⟩ : PositionedCell) ∈ diffCells old ri ci row := by
  intro row
  induction row with
  | nil => intro ci j c h; simp at h
  | cons hd rest ih =>
    intro ci j c hget hnone
    cases j with
    | zero =>
      have hc : hd = c := by simpa using hget
      subst hc
      simp only [diffCells, List.mem_append]
      left
      rw [diffOne_of_none old ri ci hd (by simpa using hnone)]
      simp
    | succ j =>
      simp only [diffCells, List.mem_append]
      right
      have := ih (ci + 1) j c (by simpa using hget) (by rw [show ci + 1 + j = ci + (j + 1) by omega]; exact hnone)
      rw [show ci + (j + 1) = ci + 1 + j by omega]
      exact this

theorem diffRows_mem_of_none (old : Grid) :
    ∀ (rows : List (List Cell)) (ri i : Nat) (row : List Cell) (j : Nat) (c : Cell),
      rows.get? i = some row → row.get? j = some c → old.cellAt (ri + i) j = none →
      (⟨c, ⟨ri + i, j⟩⟩ : PositionedCell) ∈ diffRows old ri rows := by
  intro rows
  induction rows with
  | nil => intro ri i row j c h; simp at h
  | cons hd rest ih =>
    intro ri i row j c hrow hcell hnone
    cases i with
    | zero =>
      have hr : hd = row := by simpa using hrow
      subst hr
      simp only [diffRows, List.mem_append]
      left
      have := diffCells_mem_of_none old (ri + 0) hd 0 j c hcell (by simpa using hnone)
      simpa using this
    | succ i =>
      simp only [diffRows, List.mem_append]
      right
      have := ih (ri + 1) i row j c (by simpa using hrow) hcell
        (by rw [show ri + 1 + i = ri + (i + 1) by omega]; exact hnone)
      rw [show ri + (i + 1) = ri + 1 + i by omega]
      exact this

theorem diffCells_self (g : Grid) (ri : Nat) :
    ∀ (row : List Cell) (ci : Nat),
      (∀ j c, row.get? j = some c → g.cellAt ri (ci + j) = some c) →
      diffCells g ri ci row = [] := by
  intro row
  induction row with
  | nil => intro ci _; rfl
  | cons c rest ih =>
    intro ci h
    simp only [diffCells]
    rw [diffOne_of_eq g ri ci c (by simpa using h 0 c rfl)]
    rw [ih (ci + 1) (fun j d hj => by
      have := h (j + 1) d (by simpa using hj)
      rwa [show ci + (j + 1) = ci + 1 + j by omega] at this)]
    rfl

theorem diffRows_self (g : Grid) :
    ∀ (rows : List (List Cell)) (ri : Nat),
      (∀ i row, rows.get? i = some row → g.rows.get? (ri + i) = some row) →
      diffRows g ri rows = [] := by
  intro rows
  induction rows with
  | nil => intro ri _; rfl
  | cons row rest ih =>
    intro ri h
    simp only [diffRows]
    rw [diffCells_self g ri row 0 (fun j c hj => by
      have hr : g.rows.get? ri = some row := by simpa using h 0 row rfl
      simp only [Grid.cellAt, lookupCell, hr, Option.bind_some]
      simpa using hj)]
    rw [ih (ri + 1) (fun i roww hi => by
      have := h (i + 1) roww (by simpa using hi)
      rwa [show ri + (i + 1) = ri + 1 + i by omega] at this)]
    rfl

theorem diffCells_pairwise (old : Grid) (ri : Nat) :
    ∀ (row : List Cell) (ci : Nat), List.Pairwise posLt (diffCells old ri ci row) := by
  intro row
  induction row with
  | nil => intro ci; simp [diffCells]
  | cons c rest ih =>
    intro ci
    simp only [diffCells]
    rw [List.pairwise_append]
    refine ⟨diffOne_pairwise old ri ci c, ih (ci + 1), ?_⟩
    intro a ha b hb
    rcases diffOne_mem old ri ci c a ha with rfl
    rcases diffCells_mem old ri rest (ci + 1) b hb with ⟨h1, j, _, h3⟩
    right
    exact ⟨h1.symm, by simp; omega⟩

theorem diffRows_pairwise (old : Grid) :
    ∀ (rows : List (List Cell)) (ri : Nat), List.Pairwise posLt (diffRows old ri rows) := by
  intro rows
  induction rows with
  | nil => intro ri; simp [diffRows]
  | cons row rest ih =>
    intro ri
    simp only [diffRows]
    rw [List.pairwise_append]
    refine ⟨diffCells_pairwise old ri row 0, ih (ri + 1), ?_⟩
    intro a ha b hb
    have h1 := (diffCells_mem old ri row 0 a ha).1
    rcases diffRows_mem old rest (ri + 1) b hb with ⟨i, roww, _, h2, _⟩
    left
    omega

/-! ### Facts about full enumeration -/

theorem emptyGrid_cellAt (r c : Nat) : (Grid.mk []).cellAt r c = none := by
  simp [Grid.cellAt, lookupCell]

theorem toPositionCellsRow_eq_diffCells (ri : Nat) :
    ∀ (row : List Cell) (ci : Nat),
      toPositionCellsRow ri ci row = diffCells (Grid.mk []) ri ci row := by
  intro row
  induction row with
  | nil => intro ci; rfl
  | cons c rest ih =>
    intro ci
    simp only [toPositionCellsRow, diffCells,
      diffOne_of_none (Grid.mk []) ri ci c (emptyGrid_cellAt ri ci), ih (ci + 1)]
    rfl

theorem toPositionCellsRows_eq_diffRows :
    ∀ (rows : List (List Cell)) (ri : Nat),
      toPositionCellsRows ri rows = diffRows (Grid.mk []) ri rows := by
  intro rows
  induction rows with
  | nil => intro ri; rfl
  | cons row rest ih =>
    intro ri
    simp only [toPositionCellsRows, diffRows, toPositionCellsRow_eq_diffCells, ih (ri + 1)]

theorem toPositionCellsRow_length (ri : Nat) :
    ∀ (row : List Cell) (ci : Nat), (toPositionCellsRow ri ci row).length = row.length := by
  intro row
  induction row with
  | nil => intro ci; rfl
  | cons c rest ih => intro ci; simp [toPositionCellsRow, ih (ci + 1)]

theorem toPositionCellsRows_length (w : Nat) :
    ∀ (rows : List (List Cell)) (ri : Nat), (∀ row ∈ rows, row.length = w) →
      (toPositionCellsRows ri rows).length = rows.length * w := by
  intro rows
  induction rows with
  | nil => intro ri _; simp [toPositionCellsRows]
  | cons row rest ih =>
    intro ri h
    simp only [toPositionCellsRows, List.length_append, toPositionCellsRow_length,
      ih (ri + 1) (fun r hr => h r (List.mem_cons_of_mem row hr)),
      h row (List.mem_cons_self row rest), List.length_cons]
    ring

/-! ### Claim theorems about the diff engine and full enumeration -/

/-- C4: equal-buffer idempotence — for every buffer `g`, `g.diff(&g)`
returns the empty list. -/
theorem C4_diff_self_is_empty (g : Grid) : g.diff g = [] := by
  unfold Grid.diff
  exact diffRows_self g g.rows 0 (fun i row hi => by simpa using hi)

/-- C5: shrink asymmetry — every positioned cell emitted by
`old.diff(new)` lies inside the extent of the new buffer (its row indexes an
existing row of the new buffer and its column an existing cell of that
row), so positions that exist only in the old buffer are never emitted. -/
theorem C5_diff_positions_inside_new (old n : Grid) (pc : PositionedCell)
    (h : pc ∈ old.diff n) :
    pc.position.row < n.rows.length ∧
      ∃ row, n.rows.get? pc.position.row = some row ∧ pc.position.column < row.length := by
  unfold Grid.diff at h
  rcases diffRows_mem old n.rows 0 pc h with ⟨i, row, h1, h2, j, h3, h4⟩
  have hi : pc.position.row = i := by omega
  have hjlt : j < row.length := by
    rcases List.get?_eq_some.mp h3 with ⟨hlt, _⟩
    exact hlt
  have hilt : i < n.rows.length := by
    rcases List.get?_eq_some.mp h1 with ⟨hlt, _⟩
    exact hlt
  exact ⟨by omega, row, by rw [hi]; exact h1, by omega⟩

/-- C5 witness: a concrete diff emission, checked against the theorem. -/
theorem C5_witness :
    (⟨Cell.default, ⟨0, 0⟩⟩ : PositionedCell).position.row <
        (Grid.mk [[Cell.default]]).rows.length ∧
      ∃ row, (Grid.mk [[Cell.default]]).rows.get?
          (⟨Cell.default, ⟨0, 0⟩⟩ : PositionedCell).position.row = some row ∧
        (⟨Cell.default, ⟨0, 0⟩⟩ : PositionedCell).position.column < row.length :=
  C5_diff_positions_inside_new (Grid.mk []) (Grid.mk [[Cell.default]])
    ⟨Cell.default, ⟨0, 0⟩⟩ (by decide)

/-- C6: grow coverage — at every position of the new buffer where the old
buffer has no row `r` or row `r` has no column `c`, the diff emits the new
cell of the new buffer at `(r, c)`. -/
theorem C6_diff_grow_coverage (old n : Grid) (r c : Nat) (row : List Cell) (cell : Cell)
    (hrow : n.rows.get? r = some row) (hcell : row.get? c = some cell)
    (hold : old.cellAt r c = none) :
    (⟨cell, ⟨r, c⟩⟩ : PositionedCell) ∈ old.diff n := by
  unfold Grid.diff
  have := diffRows_mem_of_none old n.rows 0 r row c cell hrow hcell (by simpa using hold)
  simpa using this

/-- C6 witness: a concrete position beyond the extent of the old buffer,
checked against the theorem. -/
theorem C6_witness :
    (⟨Cell.default, ⟨0, 0⟩⟩ : PositionedCell) ∈ (Grid.mk []).diff (Grid.mk [[Cell.default]]) :=
  C6_diff_grow_coverage (Grid.mk []) (Grid.mk [[Cell.default]]) 0 0 [Cell.default]
    Cell.default (by decide) (by decide) (by decide)

/-- C7: full-paint completeness — for a rectangular buffer of width `w`,
`to_position_cells` returns exactly `height * w` entries, equals the diff
against an empty predecessor (hence uses the same row-major
order), and contains every stored cell tagged with its coordinate. -/
theorem C7_to_position_cells_complete (g : Grid) (w : Nat)
    (hw : ∀ row ∈ g.rows, row.length = w) :
    g.to_position_cells.length = g.rows.length * w ∧
    g.to_position_cells = (Grid.mk []).diff g ∧
    ∀ r c cell, g.cellAt r c = some cell →
      (⟨cell, ⟨r, c⟩⟩ : PositionedCell) ∈ g.to_position_cells := by
  refine ⟨toPositionCellsRows_length w g.rows 0 hw, ?_, ?_⟩
  · unfold Grid.to_position_cells Grid.diff
    exact toPositionCellsRows_eq_diffRows g.rows 0
  · intro r c cell hcell
    unfold Grid.to_position_cells
    rw [toPositionCellsRows_eq_diffRows g.rows 0]
    unfold Grid.cellAt lookupCell at hcell
    rcases hrow : g.rows.get? r with _ | row
    · rw [hrow] at hcell; simp at hcell
    · rw [hrow] at hcell
      replace hcell : row.get? c = some cell := hcell
      have := diffRows_mem_of_none (Grid.mk []) g.rows 0 r row c cell hrow hcell
        (by simpa using emptyGrid_cellAt r c)
      simpa using this

/-- C7 witness: the theorem instantiated at a concrete 1-by-1 buffer. -/
theorem C7_witness :
    (Grid.mk [[Cell.default]]).to_position_cells.length =
        (Grid.mk [[Cell.default]]).rows.length * 1 ∧
      (Grid.mk [[Cell.default]]).to_position_cells =
        (Grid.mk []).diff (Grid.mk [[Cell.default]]) ∧
      ∀ r c cell, (Grid.mk [[Cell.default]]).cellAt r c = some cell →
        (⟨cell, ⟨r, c⟩⟩ : PositionedCell) ∈ (Grid.mk [[Cell.default]]).to_position_cells :=
  C7_to_position_cells_complete (Grid.mk [[Cell.default]]) 1 (by decide)

/-- C9: order determinism — the diff output is strictly sorted in
row-major (lexicographic row-then-column) order; being a pure function of
its inputs, repeated calls on identical inputs return this same list. -/
theorem C9_diff_row_major_sorted (old n : Grid) : List.Pairwise posLt (old.diff n) :=
  diffRows_pairwise old n.rows 0

/-! ### Facts about single writes and write sequences -/

theorem overwrite_some (v : Cell) (f : Option Cell) : overwrite (some v) f = some v := rfl

theorem overwrite_none (f : Option Cell) : overwrite none f = f := rfl

theorem setCell_some (rows : List (List Cell)) (r c : Nat) (cell : Cell) (row : List Cell)
    (hr : rows.get? r = some row) (hc : c < row.length) :
    setCell rows r c cell = some (rows.set r (row.set c cell)) := by
  unfold setCell; rw [hr, Option.some_bind, if_pos hc]

theorem setCell_bounds (rows rows' : List (List Cell)) (r c : Nat) (cell : Cell)
    (h : setCell rows r c cell = some rows') :
    ∃ row, rows.get? r = some row ∧ c < row.length ∧ rows' = rows.set r (row.set c cell) := by
  unfold setCell at h
  rcases Option.bind_eq_some.mp h with ⟨row, hr, hif⟩
  by_cases hc : c < row.length
  · rw [if_pos hc] at hif
    exact ⟨row, hr, hc, (Option.some_injective _ hif).symm⟩
  · rw [if_neg hc] at hif; simp at hif

theorem setCell_shape (rows rows' : List (List Cell)) (r c : Nat) (cell : Cell)
    (h : setCell rows r c cell = some rows') :
    ∀ i, (rows'.get? i).map List.length = (rows.get? i).map List.length := by
  rcases setCell_bounds rows rows' r c cell h with ⟨row, hr, hc, rfl⟩
  intro i
  by_cases hir : r = i
  · subst hir
    rw [List.get?_set_eq, hr]
    simp
  · rw [List.get?_set_ne _ _ hir]

theorem setCell_lookup (rows rows' : List (List Cell)) (r c : Nat) (cell : Cell)
    (h : setCell rows r c cell = some rows') (i j : Nat) :
    lookupCell rows' i j = if r = i ∧ c = j then some cell else lookupCell rows i j := by
  rcases setCell_bounds rows rows' r c cell h with ⟨row, hr, hc, rfl⟩
  by_cases hir : r = i
  · subst hir
    have h1 : (rows.set r (row.set c cell)).get? r = some (row.set c cell) := by
      rw [List.get?_set_eq, hr]; rfl
    by_cases hjc : c = j
    · subst hjc
      rw [if_pos ⟨rfl, rfl⟩]
      unfold lookupCell
      rw [h1, Option.some_bind, List.get?_set_eq, List.get?_eq_get hc]
      rfl
    · rw [if_neg (fun hcon => hjc hcon.2)]
      unfold lookupCell
      rw [h1, Option.some_bind, List.get?_set_ne _ _ hjc, hr, Option.some_bind]
  · rw [if_neg (fun hcon => hir hcon.1)]
    unfold lookupCell
    rw [List.get?_set_ne _ _ hir]

theorem applyWrites_shape :
    ∀ (ws : List (Nat × Nat × Cell)) (rows rows' : List (List Cell)),
      applyWrites ws rows = some rows' →
      ∀ i, (rows'.get? i).map List.length = (rows.get? i).map List.length := by
  intro ws
  induction ws with
  | nil =>
    intro rows rows' h i
    cases h; rfl
  | cons w rest ih =>
    intro rows rows' h i
    unfold applyWrites at h
    rcases hs : setCell rows w.1 w.2.1 w.2.2 with _ | rows1 <;> rw [hs] at h
    · simp at h
    · rw [ih rows1 rows' h i]
      exact setCell_shape rows rows1 w.1 w.2.1 w.2.2 hs i

theorem applyWrites_lookup :
    ∀ (ws : List (Nat × Nat × Cell)) (rows rows' : List (List Cell)),
      applyWrites ws rows = some rows' → ∀ i j,
      lookupCell rows' i j = overwrite (lastWrite i j ws) (lookupCell rows i j) := by
  intro ws
  induction ws with
  | nil =>
    intro rows rows' h i j
    cases h; rfl
  | cons w rest ih =>
    intro rows rows' h i j
    unfold applyWrites at h
    rcases hs : setCell rows w.1 w.2.1 w.2.2 with _ | rows1 <;> rw [hs] at h
    · simp at h
    · have hrec := ih rows1 rows' h i j
      have hone := setCell_lookup rows rows1 w.1 w.2.1 w.2.2 hs i j
      simp only [lastWrite]
      rcases hlw : lastWrite i j rest with _ | v <;> rw [hlw] at hrec
    
      · rw [overwrite_none] at hrec
        rw [hrec, hone]
        by_cases hij : w.1 = i ∧ w.2.1 = j
        · rw [if_pos hij, if_pos ⟨hij.1, hij.2⟩, overwrite_none, overwrite_some]
        · rw [if_neg (by tauto), if_neg hij, overwrite_none, overwrite_none]
      · rw [overwrite_some] at hrec
        rw [hrec, overwrite_some, overwrite_some]

theorem applyWrites_success :
    ∀ (ws : List (Nat × Nat × Cell)) (rows : List (List Cell)),
      (∀ w ∈ ws, ∃ n, (rows.get? w.1).map List.length = some n ∧ w.2.1 < n) →
      ∃ rows', applyWrites ws rows = some rows' := by
  intro ws
  induction ws with
  | nil => intro rows _; exact ⟨rows, rfl⟩
  | cons w rest ih =>
    intro rows h
    rcases h w (List.mem_cons_self w rest) with ⟨n, hn, hlt⟩
    rcases hr : rows.get? w.1 with _ | row <;> rw [hr] at hn
    · simp at hn
    · have hlen : n = row.length := by simpa using hn.symm
      have hset := setCell_some rows w.1 w.2.1 w.2.2 row hr (by omega)
      have hshape := setCell_shape rows (rows.set w.1 (row.set w.2.1 w.2.2)) w.1 w.2.1 w.2.2 hset
      rcases ih (rows.set w.1 (row.set w.2.1 w.2.2)) (fun w' hw' => by
        rcases h w' (List.mem_cons_of_mem w hw') with ⟨m, hm, hmlt⟩
        exact ⟨m, by rw [hshape w'.1]; exact hm, hmlt⟩) with ⟨rows', hrows'⟩
      refine ⟨rows', ?_⟩
      unfold applyWrites
      rw [hset]
      exact hrows'

theorem applyWrites_bounds :
    ∀ (ws : List (Nat × Nat × Cell)) (rows rows' : List (List Cell)),
      applyWrites ws rows = some rows' →
      ∀ w ∈ ws, ∃ n, (rows.get? w.1).map List.length = some n ∧ w.2.1 < n := by
  intro ws
  induction ws with
  | nil => intro rows rows' _ w hw; simp at hw
  | cons w0 rest ih =>
    intro rows rows' h w hw
    unfold applyWrites at h
    rcases hs : setCell rows w0.1 w0.2.1 w0.2.2 with _ | rows1 <;> rw [hs] at h
    · simp at h
    · rcases List.mem_cons.mp hw with rfl | hw'
      · rcases setCell_bounds rows rows1 w.1 w.2.1 w.2.2 hs with ⟨row, hr, hc, _⟩
        exact ⟨row.length, by rw [hr]; rfl, hc⟩
      · rcases ih rows1 rows' h w hw' with ⟨n, hn, hlt⟩
        exact ⟨n, by rw [← setCell_shape rows rows1 w0.1 w0.2.1 w0.2.2 hs w.1]; exact hn, hlt⟩

/-! ### The write pattern of the overlay operation -/

theorem overwrite_assoc (a b c : Option Cell) :
    overwrite (overwrite a b) c = overwrite a (overwrite b c) := by
  cases a <;> cases b <;> rfl

theorem lastWrite_append (i j : Nat) :
    ∀ (l1 l2 : List (Nat × Nat × Cell)),
      lastWrite i j (l1 ++ l2) = overwrite (lastWrite i j l2) (lastWrite i j l1) := by
  intro l1
  induction l1 with
  | nil =>
    intro l2
    cases hlw : lastWrite i j l2 <;> simp [lastWrite, overwrite, hlw]
  | cons w rest ih =>
    intro l2
    have hcons : lastWrite i j ((w :: rest) ++ l2) =
        overwrite (lastWrite i j (rest ++ l2))
          (if w.1 = i ∧ w.2.1 = j then some w.2.2 else none) := rfl
    rw [hcons, ih l2, overwrite_assoc]
    rfl

theorem lastWrite_rowWrites (origin : Point) (ri i j : Nat) :
    ∀ (row : List Cell) (ci : Nat),
      lastWrite i j (rowWrites origin ri ci row) =
        if i = ri + origin.row ∧ ci + origin.column ≤ j then
          row.get? (j - (ci + origin.column))
        else none := by
  intro row
  induction row with
  | nil =>
    intro ci
    simp only [rowWrites, lastWrite]
    split
    · simp
    · rfl
  | cons c rest ih =>
    intro ci
    have hcons : lastWrite i j (rowWrites origin ri ci (c :: rest)) =
        overwrite (lastWrite i j (rowWrites origin ri (ci + 1) rest))
          (if ri + origin.row = i ∧ ci + origin.column = j then some c else none) := rfl
    rw [hcons, ih (ci + 1)]
    by_cases h1 : i = ri + origin.row
    · by_cases h3 : ci + 1 + origin.column ≤ j
      · rw [if_pos (show i = ri + origin.row ∧ ci + 1 + origin.column ≤ j from ⟨h1, h3⟩),
          if_pos (show i = ri + origin.row ∧ ci + origin.column ≤ j from ⟨h1, by omega⟩),
          show j - (ci + origin.column) = (j - (ci + 1 + origin.column)) + 1 by omega]
        have hget : (c :: rest).get? ((j - (ci + 1 + origin.column)) + 1) =
            rest.get? (j - (ci + 1 + origin.column)) := rfl
        rw [hget]
        cases hg : rest.get? (j - (ci + 1 + origin.column)) with
        | none =>
          rw [overwrite_none,
            if_neg (show ¬(ri + origin.row = i ∧ ci + origin.column = j) by omega)]
        | some v => rw [overwrite_some]
      · rw [if_neg (show ¬(i = ri + origin.row ∧ ci + 1 + origin.column ≤ j) from
              fun hc => h3 hc.2), overwrite_none]
        by_cases h2 : ci + origin.column ≤ j
        · have hj : j = ci + origin.column := by omega
          rw [if_pos (show ri + origin.row = i ∧ ci + origin.column = j from
                ⟨h1.symm, hj.symm⟩),
            if_pos (show i = ri + origin.row ∧ ci + origin.column ≤ j from ⟨h1, h2⟩), hj]
          simp
        · rw [if_neg (show ¬(ri + origin.row = i ∧ ci + origin.column = j) by omega),
            if_neg (show ¬(i = ri + origin.row ∧ ci + origin.column ≤ j) from
              fun hc => h2 hc.2)]
    · rw [if_neg (show ¬(i = ri + origin.row ∧ ci + 1 + origin.column ≤ j) from
          fun hc => h1 hc.1),
        overwrite_none,
        if_neg (show ¬(ri + origin.row = i ∧ ci + origin.column = j) by omega),
        if_neg (show ¬(i = ri + origin.row ∧ ci + origin.column ≤ j) from fun hc => h1 hc.1)]

theorem lastWrite_gridWrites (origin : Point) (i j : Nat) :
    ∀ (rows : List (List Cell)) (ri : Nat),
      lastWrite i j (gridWrites origin ri rows) =
        if ri + origin.row ≤ i ∧ origin.column ≤ j then
          (rows.get? (i - (ri + origin.row))).bind (fun row => row.get? (j - origin.column))
        else none := by
  intro rows
  induction rows with
  | nil =>
    intro ri
    simp only [gridWrites, lastWrite]
    split
    · simp
    · rfl
  | cons row rest ih =>
    intro ri
    have hcons : gridWrites origin ri (row :: rest) =
        rowWrites origin ri 0 row ++ gridWrites origin (ri + 1) rest := rfl
    rw [hcons, lastWrite_append, ih (ri + 1), lastWrite_rowWrites origin ri i j row 0]
    simp only [Nat.zero_add]
    by_cases h1 : ri + origin.row ≤ i
    · by_cases h2 : origin.column ≤ j
      · by_cases h3 : ri + 1 + origin.row ≤ i
        · rw [if_pos (show ri + 1 + origin.row ≤ i ∧ origin.column ≤ j from ⟨h3, h2⟩),
            if_pos (show ri + origin.row ≤ i ∧ origin.column ≤ j from ⟨h1, h2⟩),
            show i - (ri + origin.row) = (i - (ri + 1 + origin.row)) + 1 by omega]
          have hget : (row :: rest).get? ((i - (ri + 1 + origin.row)) + 1) =
              rest.get? (i - (ri + 1 + origin.row)) := rfl
          rw [hget]
          cases hg : rest.get? (i - (ri + 1 + origin.row)) with
          | none =>
            rw [Option.none_bind, overwrite_none,
              if_neg (show ¬(i = ri + origin.row ∧ origin.column ≤ j) by omega)]
          | some rowv =>
            rw [Option.some_bind]
            cases hg2 : rowv.get? (j - origin.column) with
            | none =>
              rw [overwrite_none,
                if_neg (show ¬(i = ri + origin.row ∧ origin.column ≤ j) by omega)]
            | some v => rw [overwrite_some]
        · rw [if_neg (show ¬(ri + 1 + origin.row ≤ i ∧ origin.column ≤ j) from
              fun hc => h3 hc.1),
            overwrite_none,
            if_pos (show i = ri + origin.row ∧ origin.column ≤ j from ⟨by omega, h2⟩),
            if_pos (show ri + origin.row ≤ i ∧ origin.column ≤ j from ⟨h1, h2⟩),
            show i - (ri + origin.row) = 0 by omega]
          have hget : (row :: rest).get? 0 = some row := rfl
          rw [hget, Option.some_bind]
      · rw [if_neg (show ¬(ri + 1 + origin.row ≤ i ∧ origin.column ≤ j) from
            fun hc => h2 hc.2),
          overwrite_none,
          if_neg (show ¬(i = ri + origin.row ∧ origin.column ≤ j) from fun hc => h2 hc.2),
          if_neg (show ¬(ri + origin.row ≤ i ∧ origin.column ≤ j) from fun hc => h2 hc.2)]
    · rw [if_neg (show ¬(ri + 1 + origin.row ≤ i ∧ origin.column ≤ j) by omega),
        overwrite_none,
        if_neg (show ¬(i = ri + origin.row ∧ origin.column ≤ j) by omega),
        if_neg (show ¬(ri + origin.row ≤ i ∧ origin.column ≤ j) from fun hc => h1 hc.1)]

theorem rowWrites_mem (origin : Point) (ri : Nat) :
    ∀ (row : List Cell) (ci : Nat) (w : Nat × Nat × Cell), w ∈ rowWrites origin ri ci row →
      ∃ k, k < row.length ∧ w.1 = ri + origin.row ∧ w.2.1 = ci + k + origin.column := by
  intro row
  induction row with
  | nil => intro ci w h; simp [rowWrites] at h
  | cons c rest ih =>
    intro ci w h
    simp only [rowWrites, List.mem_cons] at h
    rcases h with rfl | h
    · exact ⟨0, by simp, rfl, by simp⟩
    · rcases ih (ci + 1) w h with ⟨k, hk, h1, h2⟩
      exact ⟨k + 1, by simpa using hk, h1, by omega⟩

theorem gridWrites_mem (origin : Point) :
    ∀ (rows : List (List Cell)) (ri : Nat) (w : Nat × Nat × Cell),
      w ∈ gridWrites origin ri rows →
      ∃ jr row k, rows.get? jr = some row ∧ k < row.length ∧
        w.1 = ri + jr + origin.row ∧ w.2.1 = k + origin.column := by
  intro rows
  induction rows with
  | nil => intro ri w h; simp [gridWrites] at h
  | cons row rest ih =>
    intro ri w h
    simp only [gridWrites, List.mem_append] at h
    rcases h with h | h
    · rcases rowWrites_mem origin ri row 0 w h with ⟨k, hk, h1, h2⟩
      exact ⟨0, row, k, rfl, hk, by omega, by omega⟩
    · rcases ih (ri + 1) w h with ⟨jr, roww, k, hjr, hk, h1, h2⟩
      exact ⟨jr + 1, roww, k, by simpa using hjr, hk, by omega, h2⟩

theorem gridWrites_mem_of (origin : Point) :
    ∀ (rows : List (List Cell)) (ri jr : Nat) (row : List Cell) (k : Nat) (c : Cell),
      rows.get? jr = some row → row.get? k = some c →
      (ri + jr + origin.row, k + origin.column, c) ∈ gridWrites origin ri rows := by
  intro rows
  induction rows with
  | nil => intro ri jr row k c h; simp at h
  | cons hd rest ih =>
    intro ri jr row k c hrow hcell
    cases jr with
    | zero =>
      have hr : hd = row := by simpa using hrow
      subst hr
      simp only [gridWrites, List.mem_append]
      left
      have : ∀ (r2 : List Cell) (ci k2 : Nat), r2.get? k2 = some c →
          (ri + origin.row, ci + k2 + origin.column, c) ∈ rowWrites origin ri ci r2 := by
        intro r2
        induction r2 with
        | nil => intro ci k2 h; simp at h
        | cons c2 rest2 ih2 =>
          intro ci k2 h
          cases k2 with
          | zero =>
            have hc2 : c2 = c := by simpa using h
            subst hc2
            simp [rowWrites]
          | succ k2 =>
            simp only [rowWrites, List.mem_cons]
            right
            have := ih2 (ci + 1) k2 (by simpa using h)
            rw [show ci + (k2 + 1) = ci + 1 + k2 by omega]
            exact this
      have hmem := this hd 0 k hcell
      simpa using hmem
    | succ jr =>
      simp only [gridWrites, List.mem_append]
      right
      have := ih (ri + 1) jr row k c (by simpa using hrow) hcell
      rw [show ri + (jr + 1) = ri + 1 + jr by omega]
      exact this

/-! ### Claim theorems about overlay, border painting and dimension -/

/-- C8: overlay containment — under the §4.4 precondition (the overlay
rectangle fits inside the rectangular destination), `update` succeeds and
every cell strictly outside the overlay rectangle keeps its pre-update
value while every cell inside equals the corresponding cell of the source
buffer. -/
theorem C8_update_containment (g other : Grid) (rectangle : Rectangle) (w w2 : Nat)
    (hg : ∀ row ∈ g.rows, row.length = w)
    (hother : ∀ row ∈ other.rows, row.length = w2)
    (hrowpre : rectangle.origin.row + other.rows.length ≤ g.rows.length)
    (hcolpre : rectangle.origin.column + w2 ≤ w) :
    ∃ g', g.update other rectangle = some g' ∧
      ∀ i j, g'.cellAt i j =
        if rectangle.origin.row ≤ i ∧ i < rectangle.origin.row + other.rows.length ∧
            rectangle.origin.column ≤ j ∧ j < rectangle.origin.column + w2 then
          other.cellAt (i - rectangle.origin.row) (j - rectangle.origin.column)
        else g.cellAt i j := by
  have hbounds : ∀ wx ∈ gridWrites rectangle.origin 0 other.rows,
      ∃ n, (g.rows.get? wx.1).map List.length = some n ∧ wx.2.1 < n := by
    intro wx hwx
    rcases gridWrites_mem rectangle.origin other.rows 0 wx hwx with ⟨jr, rowo, k, hjr, hk, h1, h2⟩
    have hjrlt : jr < other.rows.length := by
      rcases List.get?_eq_some.mp hjr with ⟨hlt, _⟩
      exact hlt
    have hrowo : rowo.length = w2 := hother rowo (List.get?_mem hjr)
    have hwx1 : wx.1 < g.rows.length := by omega
    refine ⟨w, ?_, by omega⟩
    rw [List.get?_eq_get hwx1]
    simpa using hg (g.rows.get ⟨wx.1, hwx1⟩) (List.get_mem _ _ _)
  rcases applyWrites_success (gridWrites rectangle.origin 0 other.rows) g.rows hbounds
    with ⟨rows', hrows'⟩
  refine ⟨⟨rows'⟩, ?_, ?_⟩
  · unfold Grid.update
    rw [hrows']
    rfl
  · intro i j
    have hlook :=
      applyWrites_lookup (gridWrites rectangle.origin 0 other.rows) g.rows rows' hrows' i j
    have hlw := lastWrite_gridWrites rectangle.origin i j other.rows 0
    simp only [Nat.zero_add] at hlw
    show lookupCell rows' i j = _
    rw [hlook, hlw]
    by_cases hin : rectangle.origin.row ≤ i ∧ i < rectangle.origin.row + other.rows.length ∧
        rectangle.origin.column ≤ j ∧ j < rectangle.origin.column + w2
    · rw [if_pos hin]
      obtain ⟨hi1, hi2, hj1, hj2⟩ := hin
      rw [if_pos (show rectangle.origin.row ≤ i ∧ rectangle.origin.column ≤ j from ⟨hi1, hj1⟩)]
      have hio : i - rectangle.origin.row < other.rows.length := by omega
      rw [List.get?_eq_get hio, Option.some_bind]
      have hlen : (other.rows.get ⟨i - rectangle.origin.row, hio⟩).length = w2 :=
        hother _ (List.get_mem _ _ _)
      have hjo : j - rectangle.origin.column <
          (other.rows.get ⟨i - rectangle.origin.row, hio⟩).length := by omega
      rw [List.get?_eq_get hjo, overwrite_some]
      unfold Grid.cellAt lookupCell
      rw [List.get?_eq_get hio, Option.some_bind, List.get?_eq_get hjo]
    · rw [if_neg hin]
      by_cases hb : rectangle.origin.row ≤ i ∧ rectangle.origin.column ≤ j
      · rw [if_pos hb]
        obtain ⟨hb1, hb2⟩ := hb
        by_cases hi2 : i < rectangle.origin.row + other.rows.length
        · have hj2 : ¬ j < rectangle.origin.column + w2 := by
            intro hcon
            exact hin ⟨hb1, hi2, hb2, hcon⟩
          have hio : i - rectangle.origin.row < other.rows.length := by omega
          rw [List.get?_eq_get hio, Option.some_bind]
          have hlen : (other.rows.get ⟨i - rectangle.origin.row, hio⟩).length = w2 :=
            hother _ (List.get_mem _ _ _)
          rw [List.get?_eq_none.mpr (by omega), overwrite_none]
          rfl
        · rw [List.get?_eq_none.mpr (by omega), Option.none_bind, overwrite_none]
          rfl
      · rw [if_neg hb, overwrite_none]
        rfl

/-- C8 witness: the theorem instantiated at a concrete 2-by-2 destination
and 1-by-1 overlay placed at origin (1, 1). -/
theorem C8_witness :
    ∃ g', (Grid.mk [[Cell.default, Cell.default], [Cell.default, Cell.default]]).update
        (Grid.mk [[horizontalBorderCell]]) (Rectangle.mk ⟨1, 1⟩ 1 1) = some g' ∧
      ∀ i j, g'.cellAt i j =
        if (Rectangle.mk ⟨1, 1⟩ 1 1).origin.row ≤ i ∧
            i < (Rectangle.mk ⟨1, 1⟩ 1 1).origin.row +
              (Grid.mk [[horizontalBorderCell]]).rows.length ∧
            (Rectangle.mk ⟨1, 1⟩ 1 1).origin.column ≤ j ∧
            j < (Rectangle.mk ⟨1, 1⟩ 1 1).origin.column + 1 then
          (Grid.mk [[horizontalBorderCell]]).cellAt
            (i - (Rectangle.mk ⟨1, 1⟩ 1 1).origin.row)
            (j - (Rectangle.mk ⟨1, 1⟩ 1 1).origin.column)
        else
          (Grid.mk [[Cell.default, Cell.default], [Cell.default, Cell.default]]).cellAt i j :=
  C8_update_containment (Grid.mk [[Cell.default, Cell.default], [Cell.default, Cell.default]])
    (Grid.mk [[horizontalBorderCell]]) (Rectangle.mk ⟨1, 1⟩ 1 1) 2 1
    (by decide) (by decide) (by decide) (by decide)

/-- C10: updating with an overlay buffer that has zero rows never faults
and returns the destination unchanged, for every destination and every
rectangle — even one whose origin lies outside the bounds of the destination. -/
theorem C10_update_empty_overlay_noop (g : Grid) (other : Grid) (rectangle : Rectangle)
    (h : other.rows = []) : g.update other rectangle = some g := by
  unfold Grid.update
  rw [h]
  rfl

/-- C10 witness: a 1-by-1 destination, an empty overlay and an origin far
outside the destination. -/
theorem C10_witness :
    (Grid.mk [[Cell.default]]).update (Grid.mk []) (Rectangle.mk ⟨5, 7⟩ 2 3) =
      some (Grid.mk [[Cell.default]]) :=
  C10_update_empty_overlay_noop (Grid.mk [[Cell.default]]) (Grid.mk [])
    (Rectangle.mk ⟨5, 7⟩ 2 3) rfl

/-- C3 counterexample: with an overlay buffer of zero rows the precondition
`origin.row + other.height <= self.height` is violated (5 + 0 > 1), yet
`update` neither faults nor aborts — it silently returns the destination
unchanged, contradicting the claim that every violation fails loudly. -/
theorem C3_counterexample :
    ¬ ((Rectangle.mk ⟨5, 5⟩ 0 0).origin.row + (Grid.mk []).rows.length ≤
        (Grid.mk [[Cell.default]]).rows.length) ∧
      (Grid.mk [[Cell.default]]).update (Grid.mk []) (Rectangle.mk ⟨5, 5⟩ 0 0) =
        some (Grid.mk [[Cell.default]]) :=
  ⟨by decide, rfl⟩

/-- C3 amended: when the overlay buffer actually has cells (at least one
row, rectangular with positive width) and the destination is rectangular,
violating the §4.4 precondition does make `update` fault (index panic,
modelled as `none`); an overlay with zero rows or zero width instead
returns the destination silently unchanged. -/
theorem C3_update_violation_faults (g other : Grid) (rectangle : Rectangle) (w w2 : Nat)
    (hg : ∀ row ∈ g.rows, row.length = w)
    (hother : ∀ row ∈ other.rows, row.length = w2)
    (hne : other.rows ≠ []) (hw2 : 0 < w2)
    (hviol : g.rows.length < rectangle.origin.row + other.rows.length ∨
      w < rectangle.origin.column + w2) :
    g.update other rectangle = none := by
  cases happly : applyWrites (gridWrites rectangle.origin 0 other.rows) g.rows with
  | none =>
    unfold Grid.update
    rw [happly]
    rfl
  | some rows' =>
    exfalso
    have hb := applyWrites_bounds (gridWrites rectangle.origin 0 other.rows) g.rows rows' happly
    have hL : 0 < other.rows.length := List.length_pos.mpr hne
    rcases hviol with hv | hv
    · have hlast : other.rows.length - 1 < other.rows.length := by omega
      have hrowL := List.get?_eq_get hlast
      have hlenL : (other.rows.get ⟨other.rows.length - 1, hlast⟩).length = w2 :=
        hother _ (List.get_mem _ _ _)
      have h0 : 0 < (other.rows.get ⟨other.rows.length - 1, hlast⟩).length := by omega
      have hmem := gridWrites_mem_of rectangle.origin other.rows 0 (other.rows.length - 1)
        (other.rows.get ⟨other.rows.length - 1, hlast⟩) 0
        ((other.rows.get ⟨other.rows.length - 1, hlast⟩).get ⟨0, h0⟩)
        hrowL (List.get?_eq_get h0)
      rcases hb _ hmem with ⟨n, hn, _⟩
      rw [List.get?_eq_none.mpr (by omega)] at hn
      simp at hn
    · have hrow0 := List.get?_eq_get hL
      have hlen0 : (other.rows.get ⟨0, hL⟩).length = w2 := hother _ (List.get_mem _ _ _)
      have hk : w2 - 1 < (other.rows.get ⟨0, hL⟩).length := by omega
      have hmem := gridWrites_mem_of rectangle.origin other.rows 0 0
        (other.rows.get ⟨0, hL⟩) (w2 - 1) ((other.rows.get ⟨0, hL⟩).get ⟨w2 - 1, hk⟩)
        hrow0 (List.get?_eq_get hk)
      rcases hb _ hmem with ⟨n, hn, hlt⟩
      rcases hgr : g.rows.get? (0 + 0 + rectangle.origin.row) with _ | rowg
      · rw [hgr] at hn
        simp at hn
      · rw [hgr] at hn
        have hnw : n = rowg.length := by simpa using hn.symm
        have hwg : rowg.length = w := hg rowg (List.get?_mem hgr)
        have hlt2 : w2 - 1 + rectangle.origin.column < n := hlt
        omega

/-- C3 amended-claim witness: a 1-by-2 overlay on a 1-by-1 destination at
origin (0, 0) violates the column precondition and faults. -/
theorem C3_witness :
    (Grid.mk [[Cell.default]]).update (Grid.mk [[Cell.default, Cell.default]])
      (Rectangle.mk ⟨0, 0⟩ 2 1) = none :=
  C3_update_violation_faults (Grid.mk [[Cell.default]])
    (Grid.mk [[Cell.default, Cell.default]]) (Rectangle.mk ⟨0, 0⟩ 2 1) 1 2
    (by decide) (by decide) (by decide) (by decide) (Or.inr (by decide))

/-- C2 counterexample: a horizontal border whose start coordinate (row 5,
column 0) is at or beyond the extent of a 1-by-2 buffer (5 >= height 1)
makes `set_border` panic on the `rows[5]` indexing — it is not a no-op. -/
theorem C2_counterexample :
    (Grid.mk [[Cell.default, Cell.default]]).rows.length ≤ 5 ∧
      (Grid.mk [[Cell.default, Cell.default]]).set_border
        (Border.mk BorderDirection.horizontal ⟨5, 0⟩) = none :=
  ⟨by decide, by decide⟩

/-- C2 amended: for a nonempty buffer with dimensions below 2^16, a border
whose start coordinate measured along its own direction is at or beyond
the buffer extent — column at or past the width for a horizontal border,
row at or past the height for a vertical border — paints nothing:
`set_border` returns the buffer unchanged and does not fault. (A start
beyond the extent only in the perpendicular coordinate faults instead, as
the counterexample shows.) -/
theorem C2_set_border_beyond_extent_noop (g : Grid) (b : Border)
    (hne : g.rows ≠ [])
    (hcase :
      (b.direction = BorderDirection.horizontal ∧ g.rows.headI.length ≤ b.start.column ∧
        b.start.column < 65536 ∧ g.rows.headI.length < 65536) ∨
      (b.direction = BorderDirection.vertical ∧ g.rows.length ≤ b.start.row ∧
        b.start.row < 65536 ∧ g.rows.length < 65536)) :
    g.set_border b = some g := by
  rcases hrows : g.rows with _ | ⟨r0, rest⟩
  · exact absurd hrows hne
  · have hdim : g.dimension =
        some ⟨(r0 :: rest).length % 65536, r0.length % 65536⟩ := by
      unfold Grid.dimension
      rw [hrows]
      rfl
    have hhead : g.rows.headI = r0 := by rw [hrows]; rfl
    rcases hcase with ⟨hdir, hcol, hc16, hw16⟩ | ⟨hdir, hrow, hr16, hh16⟩
    · rw [hhead] at hcol hw16
      have h0 : r0.length % 65536 - b.start.column % 65536 = 0 := by
        rw [Nat.mod_eq_of_lt hw16, Nat.mod_eq_of_lt hc16]
        omega
      unfold Grid.set_border
      rw [hdim]
      simp only [hdir, h0, List.range_zero, List.map_nil]
      rfl
    · rw [hrows] at hrow hh16
      have h0 : (r0 :: rest).length % 65536 - b.start.row % 65536 = 0 := by
        rw [Nat.mod_eq_of_lt hh16, Nat.mod_eq_of_lt hr16]
        omega
      unfold Grid.set_border
      rw [hdim]
      simp only [hdir, h0, List.range_zero, List.map_nil]
      rfl

/-- C2 amended-claim witness: a horizontal border starting at column 5 of
a 1-by-1 buffer is a no-op. -/
theorem C2_witness :
    (Grid.mk [[Cell.default]]).set_border (Border.mk BorderDirection.horizontal ⟨0, 5⟩) =
      some (Grid.mk [[Cell.default]]) :=
  C2_set_border_beyond_extent_noop (Grid.mk [[Cell.default]])
    (Border.mk BorderDirection.horizontal ⟨0, 5⟩) (by decide)
    (Or.inl ⟨rfl, by decide, by decide, by decide⟩)

/-- C1: the code faults on the degenerate buffer — `dimension` on the
zero-height buffer built by `Grid::new` with height 0 panics on the
`rows[0]` indexing (modelled as `none`) instead of returning width 0. -/
theorem C1_dimension_zero_height_faults :
    (Grid.new (Dimension.mk 0 3)).dimension = none := rfl
